import Mathlib

/-!
Shallow embedding of the evm_tool repository (a browser front-end for EVM
contract interaction) and proofs about its behaviour.

Modules embedded:
- AbiManager        (src/js/modules/abi-manager.js)
- HistoryManager    (src/unnamed/part_002)
- ContractInteractor (src/js/modules/contract-interactor.js)
- the static file server (src/unnamed/part_000)

External host facilities (JSON.parse, ethers, Node fs/path, localStorage) are
not code of this repository; they are abstracted: JSON.parse is a parameter
of type String to Option Json, the filesystem is a parameter of type
String to ReadResult, and the ethers contract bindings are represented by
presence flags, with dispatch decisions reified as a Dispatch value.
-/

namespace EvmTool

/-- Abstract model of a parsed JSON value, the codomain of the host
JSON.parse. Only the array discriminator is inspected by the repository
(Array.isArray in validateAbi), so the exact number representation is
irrelevant. -/
inductive Json where
  | null : Json
  | boolV : Bool → Json
  | num : Int → Json
  | str : String → Json
  | arr : List Json → Json
  | obj : List (String × Json) → Json

/-- Array.isArray on a parsed JSON value. -/
def Json.isArray : Json → Bool
  | .arr _ => true
  | _ => false

/-- Lookup of a string-valued own property on a plain JS object, modelled as
an association list in insertion order. -/
def objGet (m : List (String × String)) (k : String) : Option String :=
  (m.find? (fun p => p.1 == k)).map Prod.snd

/-- Assignment obj[k] = v on a plain JS object: an existing key keeps its
position and receives the new value, a fresh key is appended. -/
def objSet (m : List (String × String)) (k v : String) : List (String × String) :=
  if m.any (fun p => p.1 == k) then
    m.map (fun p => if p.1 = k then (k, v) else p)
  else
    m ++ [(k, v)]

/-- The delete operator on a plain JS object key. -/
def objDelete (m : List (String × String)) (k : String) : List (String × String) :=
  m.filter (fun p => p.1 != k)

/-- JS truthiness of a possibly-absent string property: absent (undefined)
and the empty string are falsy, every other string is truthy. -/
def strTruthy : Option String → Bool
  | none => false
  | some s => s != ""

namespace AbiManager

/-- The this.savedAbis field: ABI name mapped to raw ABI text. -/
abbrev SavedAbis := List (String × String)

/-- Error message thrown by saveAbi on a JSON.parse failure
(abi-manager.js line 47). -/
def invalidFormatMsg : String := "ABI格式无效，请检查JSON格式是否正确"

/-- AbiManager.saveAbi (abi-manager.js lines 35 to 49): parses content with
the host JSON.parse (abstracted as the parse argument); on success stores the
raw content text under name and returns true, on failure throws the
invalid-format error. localStorage.setItem is modelled as infallible. -/
def saveAbi (parse : String → Option Json) (m : SavedAbis) (name content : String) :
    Except String (Bool × SavedAbis) :=
  match parse content with
  | some _ => Except.ok (true, objSet m name content)
  | none => Except.error invalidFormatMsg

/-- AbiManager.deleteAbi (abi-manager.js lines 55 to 63): deletes the key and
returns true when this.savedAbis[name] is truthy, otherwise returns false
without touching the map. -/
def deleteAbi (m : SavedAbis) (name : String) : Bool × SavedAbis :=
  if strTruthy (objGet m name) then (true, objDelete m name)
  else (false, m)

/-- AbiManager.getAbiByName (abi-manager.js lines 69 to 71):
this.savedAbis[name] or else null. -/
def getAbiByName (m : SavedAbis) (name : String) : Option String :=
  if strTruthy (objGet m name) then objGet m name else none

/-- AbiManager.getSavedAbisList (abi-manager.js lines 77 to 79):
Object.keys(this.savedAbis). -/
def getSavedAbisList (m : SavedAbis) : List String :=
  m.map Prod.fst

/-- AbiManager.validateAbi (abi-manager.js lines 86 to 93): true exactly when
the text parses as JSON and the parsed value is an array. -/
def validateAbi (parse : String → Option Json) (abiString : String) : Bool :=
  match parse abiString with
  | some j => j.isArray
  | none => false

end AbiManager

namespace HistoryManager

/-- State of a HistoryManager: the in-memory this.history list and the
persisted form written by _saveHistory under the tx_history key. Entries are
kept abstract (type parameter), matching the untyped JS history items. -/
structure State (α : Type) where
  history : List α
  stored : List α

/-- this.maxHistoryItems (part_002 line 8). -/
def maxHistoryItems : Nat := 50

/-- HistoryManager.addToHistory (part_002 lines 48 to 60): unshift the new
item, slice down to maxHistoryItems when the length exceeds it, persist,
return true. -/
def addToHistory (st : State α) (historyItem : α) : Bool × State α :=
  let h := historyItem :: st.history
  let h := if h.length > maxHistoryItems then h.take maxHistoryItems else h
  (true, ⟨h, h⟩)

/-- HistoryManager.clearHistory (part_002 lines 65 to 69). -/
def clearHistory (st : State α) : Bool × State α :=
  let _ := st
  (true, ⟨[], []⟩)

/-- HistoryManager.deleteHistoryItem (part_002 lines 75 to 82): splice out
the entry at index and persist when 0 <= index < length, otherwise return
false and change nothing. The index is an Int so that negative inputs are
representable. -/
def deleteHistoryItem (st : State α) (index : Int) : Bool × State α :=
  if 0 ≤ index ∧ index < (st.history.length : Int) then
    let h := st.history.eraseIdx index.toNat
    (true, ⟨h, h⟩)
  else
    (false, st)

/-- HistoryManager.getHistory (part_002 lines 88 to 90). -/
def getHistory (st : State α) : List α :=
  st.history

/-- HistoryManager.getRecentHistory (part_002 lines 97 to 99). -/
def getRecentHistory (st : State α) (count : Nat) : List α :=
  st.history.take count

end HistoryManager

namespace ContractInteractor

/-- One typed input or output slot of an ABI function entry. A missing or
empty JSON name field is represented as the empty string (both are falsy
where the code tests the name). -/
structure AbiParam where
  name : String
  type : String
deriving DecidableEq, Repr

/-- One entry of a parsed ABI array, with only the fields the module reads.
Optional fields model properties that may be absent (undefined) in the JSON
document. -/
structure AbiEntry where
  type : String
  name : String
  stateMutability : Option String
  inputs : Option (List AbiParam)
  outputs : Option (List AbiParam)
  constant : Option Bool
  payable : Option Bool
deriving DecidableEq, Repr

/-- Untyped JS value as passed for a function parameter. -/
inductive JsValue where
  | undefV : JsValue
  | boolV : Bool → JsValue
  | num : Int → JsValue
  | str : String → JsValue
  | arrV : List JsValue → JsValue

/-- JS truthiness of a JsValue (Boolean(value)). -/
def JsValue.truthy : JsValue → Bool
  | .undefV => false
  | .boolV b => b
  | .num n => n != 0
  | .str s => s != ""
  | .arrV _ => true

/-- Array.isArray on a JsValue. -/
def JsValue.isArr : JsValue → Bool
  | .arrV _ => true
  | _ => false

/-- The strict equality test value === undefined. -/
def JsValue.isUndefined : JsValue → Bool
  | .undefV => true
  | _ => false

mutual

/-- JS value.toString() for the values representable here (only reached on
defined values; arrays join their elements with commas). -/
def JsValue.toStr : JsValue → String
  | .undefV => "undefined"
  | .boolV b => if b then "true" else "false"
  | .num n => toString n
  | .str s => s
  | .arrV xs => String.intercalate "," (JsValue.toStrList xs)

/-- Elementwise toString over the members of a JS array. -/
def JsValue.toStrList : List JsValue → List String
  | [] => []
  | x :: xs => x.toStr :: JsValue.toStrList xs

end

/-- The String.prototype.includes test used on ABI type strings. -/
def strIncludes (s sub : String) : Bool :=
  (s.splitOn sub).length ≥ 2

/-- State of a ContractInteractor: the stored address and parsed ABI, and
presence flags for the read-only ethers contract binding and the
signer-backed one (the bindings themselves are external library objects). -/
structure State where
  contractAddress : Option String
  abi : Option (List AbiEntry)
  contract : Bool
  contractWithSigner : Bool
deriving DecidableEq, Repr

/-- ContractInteractor.isContractReady (contract-interactor.js lines 90 to
92): double negation of contractAddress, abi and a binding all being truthy.
A stored address is truthy unless empty; a parsed ABI (an array) is always
truthy when present. -/
def isContractReady (st : State) : Bool :=
  (match st.contractAddress with
   | some s => s != ""
   | none => false)
  && st.abi.isSome
  && (st.contract || st.contractWithSigner)

/-- The descriptor produced per function entry by getAvailableFunctions. -/
structure FunctionInfo where
  name : String
  type : Option String
  inputs : Option (List AbiParam)
  outputs : Option (List AbiParam)
  constant : Option Bool
  payable : Bool
deriving DecidableEq, Repr

/-- The projection applied by getAvailableFunctions to a function-type ABI
entry (contract-interactor.js lines 110 to 117): func.payable truthy, or
else the stateMutability comparison. -/
def toFunctionInfo (func : AbiEntry) : FunctionInfo :=
  { name := func.name
    type := func.stateMutability
    inputs := func.inputs
    outputs := func.outputs
    constant := func.constant
    payable := func.payable == some true || func.stateMutability == some "payable" }

/-- ContractInteractor.getAvailableFunctions (contract-interactor.js lines
105 to 118): empty when no ABI is set, otherwise the function-type entries
in order, each projected to a FunctionInfo. -/
def getAvailableFunctions (st : State) : List FunctionInfo :=
  match st.abi with
  | none => []
  | some abi => (abi.filter (fun item => item.type == "function")).map toFunctionInfo

/-- ContractInteractor.getFunctionDetails (contract-interactor.js lines 125
to 133): first ABI entry of type function with the requested name. -/
def getFunctionDetails (st : State) (functionName : String) : Option AbiEntry :=
  match st.abi with
  | none => none
  | some abi => abi.find? (fun item => item.type == "function" && item.name == functionName)

/-- ContractInteractor._processParams (contract-interactor.js lines 212 to
242): per input definition, the positional value (undefined when the params
list is shorter) is coerced by type-string checks in source order. -/
def processParams (inputDefinitions : Option (List AbiParam)) (params : List JsValue) :
    List JsValue :=
  match inputDefinitions with
  | none => []
  | some defs =>
    defs.mapIdx (fun index input =>
      let value := (params.get? index).getD .undefV
      if value.isUndefined then .undefV
      else
        let type := input.type
        if strIncludes type "[]" && value.isArr then value
        else if type.startsWith "uint" || type.startsWith "int" then .str value.toStr
        else if type == "address" then value
        else if type == "bool" then .boolV value.truthy
        else if type.startsWith "bytes" then value
        else if type == "string" then value
        else value)

/-- The dispatch decision reached by callFunction before any external call
is performed. readCall records dispatch through the read-only binding
(this.contract) with the processed arguments and the output definitions that
_formatResult will receive; writeCall records dispatch through the
signer-backed binding with the string handed to ethers.utils.parseEther when
a transaction value is attached. -/
inductive Dispatch where
  | errNotReady : Dispatch
  | errUnknownFunction : String → Dispatch
  | readCall : String → List JsValue → Option (List AbiParam) → Dispatch
  | errSignerRequired : Dispatch
  | writeCall : String → List JsValue → Option String → Dispatch

/-- ContractInteractor.callFunction up to the external dispatch
(contract-interactor.js lines 142 to 187): readiness check, function lookup,
read-only and payable classification, parameter processing, then branch to
the read path or the signer-requiring write path. options.value is a single
JsValue (undefV when absent). -/
def callFunction (st : State) (functionName : String) (params : List JsValue)
    (optionsValue : JsValue) : Dispatch :=
  if !isContractReady st then .errNotReady
  else
    match getFunctionDetails st functionName with
    | none => .errUnknownFunction functionName
    | some funcDetails =>
      let isReadOnly :=
        funcDetails.stateMutability == some "view"
        || funcDetails.stateMutability == some "pure"
        || funcDetails.constant == some true
      let isPayable :=
        funcDetails.stateMutability == some "payable"
        || funcDetails.payable == some true
      let processedParams := processParams funcDetails.inputs params
      if isReadOnly then
        .readCall functionName processedParams funcDetails.outputs
      else if !st.contractWithSigner then
        .errSignerRequired
      else
        .writeCall functionName processedParams
          (if isPayable && optionsValue.truthy then some optionsValue.toStr else none)

/-- Raw value returned by an external contract call: a big integer
(ethers.BigNumber), a plain scalar, or an array-shaped result. -/
inductive RawValue where
  | big : Int → RawValue
  | str : String → RawValue
  | boolV : Bool → RawValue
  | num : Int → RawValue
  | arr : List RawValue → RawValue

/-- ethers.BigNumber.isBigNumber on a raw value. -/
def RawValue.isBig : RawValue → Bool
  | .big _ => true
  | _ => false

/-- Array.isArray on a raw value. -/
def RawValue.isArr : RawValue → Bool
  | .arr _ => true
  | _ => false

/-- One field of the object built by _formatResult: undefined when the raw
array is shorter than the output list, the decimal string of a BigNumber, or
the raw value unchanged. -/
inductive FieldVal where
  | undefV : FieldVal
  | strF : String → FieldVal
  | raw : RawValue → FieldVal

/-- Value returned by _formatResult: the raw value unchanged, a stringified
BigNumber, or an object keyed by output names (fields listed in output
order). -/
inductive Formatted where
  | fromRaw : RawValue → Formatted
  | strF : String → Formatted
  | objF : List (String × FieldVal) → Formatted

/-- The per-field body of the forEach in _formatResult (contract-interactor.js
lines 261 to 270). -/
def formatField (value : Option RawValue) : FieldVal :=
  match value with
  | some (.big n) => .strF (toString n)
  | some v => .raw v
  | none => .undefV

/-- The key chosen for output index i: output.name or else output_i. -/
def outputKey (index : Nat) (output : AbiParam) : String :=
  if output.name != "" then output.name else "output_" ++ toString index

/-- ContractInteractor._formatResult (contract-interactor.js lines 251 to
275): a BigNumber result is stringified; an array result with a present
output-definition list of length above one is re-projected into an object
keyed by output names with BigNumber fields stringified; anything else is
returned unchanged. -/
def formatResult (result : RawValue) (outputDefinitions : Option (List AbiParam)) :
    Formatted :=
  match result with
  | .big n => .strF (toString n)
  | .arr xs =>
    match outputDefinitions with
    | some defs =>
      if defs.length > 1 then
        .objF (defs.mapIdx (fun index output => (outputKey index output, formatField (xs.get? index))))
      else .fromRaw result
    | none => .fromRaw result
  | _ => .fromRaw result

end ContractInteractor

namespace StaticServer

/-- Result of an fs.readFile attempt: file content, a not-found error
(code ENOENT), or another error with its code. The filesystem is external;
a request handler run is modelled against an arbitrary such function. -/
inductive ReadResult where
  | ok : String → ReadResult
  | enoent : ReadResult
  | err : String → ReadResult
deriving DecidableEq, Repr

/-- The response written by the handler: status, the Content-Type header
when one is set, and the body text. -/
structure Response where
  status : Nat
  contentType : Option String
  body : String
deriving DecidableEq, Repr

/-- The MIME_TYPES table (part_000 lines 7 to 18). -/
def MIME_TYPES : List (String × String) :=
  [(".html", "text/html"),
   (".css", "text/css"),
   (".js", "application/javascript"),
   (".json", "application/json"),
   (".png", "image/png"),
   (".jpg", "image/jpeg"),
   (".jpeg", "image/jpeg"),
   (".gif", "image/gif"),
   (".svg", "image/svg+xml"),
   (".ico", "image/x-icon")]

/-- Path resolution of the handler (part_000 lines 24 to 27): prefix the URL
with a dot and map the bare root to ./index.html. -/
def resolvePath (url : String) : String :=
  let filePath := "." ++ url
  if filePath == "./" then "./index.html" else filePath

/-- Content type for a resolved path (part_000 lines 30 to 31), given the
extension-extracting function (the host path.extname, kept abstract): the
MIME table entry or text/plain. -/
def contentTypeFor (extnameF : String → String) (filePath : String) : String :=
  ((MIME_TYPES.find? (fun p => p.1 == extnameF filePath)).map Prod.snd).getD "text/plain"

/-- The request handler (part_000 lines 20 to 58) over an abstract
filesystem fs and extension function: serve the resolved file with its
content type on success; on ENOENT fall back to ./index.html served as
text/html, with a 500 plain error when that read fails too; any other read
error yields a 500 with the error code. -/
def handleRequest (extnameF : String → String) (fs : String → ReadResult) (url : String) :
    Response :=
  let filePath := resolvePath url
  let contentType := contentTypeFor extnameF filePath
  match fs filePath with
  | .ok content => ⟨200, some contentType, content⟩
  | .enoent =>
    match fs "./index.html" with
    | .ok content => ⟨200, some "text/html", content⟩
    | _ => ⟨500, none, "Error loading index.html"⟩
  | .err code => ⟨500, none, "Server Error: " ++ code⟩

end StaticServer

/-! Helper lemmas about the JS-object operations. -/

theorem objGet_nil (k : String) : objGet [] k = none := rfl

theorem objGet_cons (p : String × String) (rest : List (String × String)) (k : String) :
    objGet (p :: rest) k = if p.1 = k then some p.2 else objGet rest k := by
  rcases eq_or_ne p.1 k with hpk | hpk
  · simp [objGet, List.find?, hpk]
  · have hp' : (p.1 == k) = false := by simpa using hpk
    simp [objGet, List.find?, hp', hpk]

theorem objGet_mapSet_self (m : List (String × String)) (k v : String)
    (h : m.any (fun p => p.1 == k) = true) :
    objGet (m.map (fun p => if p.1 = k then (k, v) else p)) k = some v := by
  induction m with
  | nil => simp at h
  | cons p rest ih =>
    rcases eq_or_ne p.1 k with hpk | hpk
    · simp [objGet_cons, hpk]
    · have hb : (p.1 == k) = false := by simpa using hpk
      have h' : rest.any (fun p => p.1 == k) = true := by simpa [hb] using h
      simpa [objGet_cons, hpk] using ih h'

theorem objGet_append_single_self (m : List (String × String)) (k v : String)
    (h : m.any (fun p => p.1 == k) = false) :
    objGet (m ++ [(k, v)]) k = some v := by
  induction m with
  | nil => simp [objGet_cons]
  | cons p rest ih =>
    simp only [List.any_cons, Bool.or_eq_false_iff] at h
    have hpk : p.1 ≠ k := by simpa using h.1
    simpa [objGet_cons, hpk] using ih h.2

theorem objGet_objSet_self (m : List (String × String)) (k v : String) :
    objGet (objSet m k v) k = some v := by
  unfold objSet
  by_cases h : m.any (fun p => p.1 == k)
  · rw [if_pos h]
    exact objGet_mapSet_self m k v h
  · rw [if_neg h]
    have hf : m.any (fun p => p.1 == k) = false := by
      revert h
      cases m.any (fun p => p.1 == k) <;> simp
    exact objGet_append_single_self m k v hf

theorem objGet_mapSet_ne (m : List (String × String)) (k v k' : String) (h : k' ≠ k) :
    objGet (m.map (fun p => if p.1 = k then (k, v) else p)) k' = objGet m k' := by
  induction m with
  | nil => rfl
  | cons p rest ih =>
    rcases eq_or_ne p.1 k with hpk | hpk
    · have hkk' : k ≠ k' := Ne.symm h
      simpa [objGet_cons, hpk, hkk'] using ih
    · rcases eq_or_ne p.1 k' with hq | hq
      · simp [objGet_cons, hpk, hq, h]
      · simpa [objGet_cons, hpk, hq] using ih

theorem objGet_append_single_ne (m : List (String × String)) (k v k' : String) (h : k' ≠ k) :
    objGet (m ++ [(k, v)]) k' = objGet m k' := by
  induction m with
  | nil => simp [objGet_cons, Ne.symm h, objGet_nil]
  | cons p rest ih =>
    rcases eq_or_ne p.1 k' with hq | hq
    · simp [objGet_cons, hq]
    · simpa [objGet_cons, hq] using ih

theorem objGet_objSet_ne (m : List (String × String)) (k v k' : String) (h : k' ≠ k) :
    objGet (objSet m k v) k' = objGet m k' := by
  unfold objSet
  by_cases hmem : m.any (fun p => p.1 == k)
  · rw [if_pos hmem]
    exact objGet_mapSet_ne m k v k' h
  · rw [if_neg hmem]
    exact objGet_append_single_ne m k v k' h

theorem objSet_length_of_any (m : List (String × String)) (k v : String)
    (h : m.any (fun p => p.1 == k) = true) :
    (objSet m k v).length = m.length := by
  unfold objSet
  simp [h]

theorem objGet_isSome_iff_any (m : List (String × String)) (k : String) :
    (objGet m k).isSome = m.any (fun p => p.1 == k) := by
  induction m with
  | nil => rfl
  | cons p rest ih =>
    rcases eq_or_ne p.1 k with hpk | hpk
    · simp [objGet_cons, hpk]
    · have hb : (p.1 == k) = false := by simpa using hpk
      simpa [objGet_cons, hpk, hb] using ih

theorem objGet_objDelete_self (m : List (String × String)) (k : String) :
    objGet (objDelete m k) k = none := by
  unfold objDelete
  induction m with
  | nil => rfl
  | cons p rest ih =>
    rcases eq_or_ne p.1 k with hpk | hpk
    · have hb : (p.1 != k) = false := by simp [bne, hpk]
      simpa [List.filter_cons, hb] using ih
    · have hb : (p.1 != k) = true := by simp [bne, hpk]
      simpa [List.filter_cons, hb, objGet_cons, hpk] using ih

theorem objGet_objDelete_ne (m : List (String × String)) (k k' : String) (h : k' ≠ k) :
    objGet (objDelete m k) k' = objGet m k' := by
  unfold objDelete
  induction m with
  | nil => rfl
  | cons p rest ih =>
    rcases eq_or_ne p.1 k with hpk | hpk
    · have hb : (p.1 != k) = false := by simp [bne, hpk]
      have hck : p.1 ≠ k' := by
        rw [hpk]
        exact Ne.symm h
      simpa [List.filter_cons, hb, objGet_cons, hck] using ih
    · have hb : (p.1 != k) = true := by simp [bne, hpk]
      rcases eq_or_ne p.1 k' with hq | hq
      · simp [List.filter_cons, bne, objGet_cons, hq, h]
      · simpa [List.filter_cons, hb, objGet_cons, hq] using ih

theorem objDelete_length (m : List (String × String)) (k v : String)
    (hnd : (m.map Prod.fst).Nodup) (h : objGet m k = some v) :
    (objDelete m k).length + 1 = m.length := by
  unfold objDelete
  induction m with
  | nil => simp [objGet_nil] at h
  | cons p rest ih =>
    rcases eq_or_ne p.1 k with hpk | hpk
    · have hb : (p.1 != k) = false := by simp [bne, hpk]
      have hnotin : ∀ q ∈ rest, (q.1 != k) = true := by
        intro q hq
        have h1 := (List.nodup_cons.mp hnd).1
        simp only [List.mem_map] at h1
        have hqk : q.1 ≠ k := by
          intro hqk
          exact h1 ⟨q, hq, by rw [hqk, ← hpk]⟩
        simp [bne, hqk]
      have hfix : rest.filter (fun q => q.1 != k) = rest :=
        List.filter_eq_self.mpr hnotin
      simp [List.filter_cons, hb, hfix]
    · have hb : (p.1 != k) = true := by simp [bne, hpk]
      have h2 : objGet rest k = some v := by
        rw [objGet_cons, if_neg hpk] at h
        exact h
      have := ih (List.nodup_cons.mp hnd).2 h2
      simp only [List.filter_cons, hb, if_true, List.length_cons]
      omega

/-- Claim C1: starting from a history of at most 50 entries, addToHistory
puts the new entry at the front, the resulting history is exactly the 50
most recently added entries newest first (the take-50 prefix of the new
entry followed by the old list), and its length never exceeds 50. -/
theorem addToHistory_cap {α : Type} (st : HistoryManager.State α) (e : α)
    (hlen : st.history.length ≤ 50) :
    ((HistoryManager.addToHistory st e).2.history.head? = some e) ∧
    ((HistoryManager.addToHistory st e).2.history.length ≤ 50) ∧
    ((HistoryManager.addToHistory st e).2.history = (e :: st.history).take 50) := by
  have hres : (HistoryManager.addToHistory st e).2.history =
      if (e :: st.history).length > 50 then (e :: st.history).take 50
      else e :: st.history := rfl
  rcases Nat.lt_or_ge st.history.length 50 with hlt | hge
  · have hcond : ¬ ((e :: st.history).length > 50) := by
      simp only [List.length_cons]
      omega
    rw [hres, if_neg hcond]
    have hle : (e :: st.history).length ≤ 50 := by
      simp only [List.length_cons]
      omega
    exact ⟨rfl, hle, (List.take_of_length_le hle).symm⟩
  · have h50 : st.history.length = 50 := le_antisymm hlen hge
    have hcond : (e :: st.history).length > 50 := by
      simp only [List.length_cons]
      omega
    rw [hres, if_pos hcond]
    refine ⟨?_, by simp [List.length_take], rfl⟩
    show (List.take (49 + 1) (e :: st.history)).head? = some e
    rw [List.take_succ_cons]
    rfl

theorem addToHistory_cap_witness :
    ((⟨[1, 2], [1, 2]⟩ : HistoryManager.State Nat).history.length ≤ 50) ∧
    (HistoryManager.addToHistory (⟨[1, 2], [1, 2]⟩ : HistoryManager.State Nat) 0).2.history
      = [0, 1, 2] := by
  have h := addToHistory_cap (⟨[1, 2], [1, 2]⟩ : HistoryManager.State Nat) 0 (by decide)
  exact ⟨by decide, h.2.2⟩

/-- Claim C9: deleteHistoryItem on an out-of-range index (negative or not
below the length) returns false and leaves both the in-memory history and
its persisted form unchanged; on an in-range index it removes exactly the
entry at that index (the list becomes the prefix before it followed by the
suffix after it, one entry shorter) and returns true. -/
theorem deleteHistoryItem_spec {α : Type} (st : HistoryManager.State α) (index : Int) :
    (¬ (0 ≤ index ∧ index < (st.history.length : Int)) →
       HistoryManager.deleteHistoryItem st index = (false, st)) ∧
    (∀ i : Nat, index = (i : Int) → i < st.history.length →
       HistoryManager.deleteHistoryItem st index =
         (true, ⟨st.history.take i ++ st.history.drop (i + 1),
                 st.history.take i ++ st.history.drop (i + 1)⟩) ∧
       (st.history.take i ++ st.history.drop (i + 1)).length + 1 = st.history.length) := by
  constructor
  · intro h
    unfold HistoryManager.deleteHistoryItem
    simp [h]
  · intro i hi hlt
    subst hi
    have hin : 0 ≤ (i : Int) ∧ (i : Int) < (st.history.length : Int) := by
      constructor
      · exact Int.ofNat_nonneg i
      · exact_mod_cast hlt
    unfold HistoryManager.deleteHistoryItem
    rw [if_pos hin]
    constructor
    · simp [List.eraseIdx_eq_take_drop_succ]
    · rw [← List.eraseIdx_eq_take_drop_succ]
      exact List.length_eraseIdx_add_one hlt

theorem deleteHistoryItem_spec_witness :
    (HistoryManager.deleteHistoryItem
        (⟨[10, 20, 30], [10, 20, 30]⟩ : HistoryManager.State Nat) 1 =
      (true, ⟨[10, 30], [10, 30]⟩)) ∧
    (HistoryManager.deleteHistoryItem
        (⟨[10, 20, 30], [10, 20, 30]⟩ : HistoryManager.State Nat) (-1) =
      (false, ⟨[10, 20, 30], [10, 20, 30]⟩)) := by
  have h := deleteHistoryItem_spec (⟨[10, 20, 30], [10, 20, 30]⟩ : HistoryManager.State Nat) 1
  have h2 := deleteHistoryItem_spec (⟨[10, 20, 30], [10, 20, 30]⟩ : HistoryManager.State Nat) (-1)
  exact ⟨(h.2 1 rfl (by decide)).1, h2.1 (by decide)⟩

/-- Claim C2: after a successful saveAbi of a text that the host JSON parser
accepts as a JSON array, getAbiByName on the same name returns exactly the
original text. The hypothesis that the parser rejects the empty string is a
property of any JSON parser (no JSON document is the empty text). -/
theorem saveAbi_roundTrip (parse : String → Option Json) (hempty : parse "" = none)
    (m : AbiManager.SavedAbis) (name text : String) (xs : List Json)
    (hparse : parse text = some (Json.arr xs)) :
    AbiManager.saveAbi parse m name text = Except.ok (true, objSet m name text) ∧
    AbiManager.getAbiByName (objSet m name text) name = some text := by
  have hne : text ≠ "" := by
    intro h
    rw [h, hempty] at hparse
    exact Option.noConfusion hparse
  constructor
  · unfold AbiManager.saveAbi
    rw [hparse]
  · unfold AbiManager.getAbiByName
    rw [objGet_objSet_self]
    simp [strTruthy, bne, hne]

/-- Stub JSON parser used to instantiate the parser-parameterised theorems
at a concrete input: it accepts exactly the text of the empty array. -/
def parseStub : String → Option Json := fun s =>
  if s = "[]" then some (Json.arr []) else none

theorem saveAbi_roundTrip_witness :
    AbiManager.saveAbi parseStub [] "Token" "[]" =
      Except.ok (true, [("Token", "[]")]) ∧
    AbiManager.getAbiByName [("Token", "[]")] "Token" = some "[]" := by
  have h := saveAbi_roundTrip parseStub rfl [] "Token" "[]" [] rfl
  exact ⟨h.1, h.2⟩

/-- Claim C6: saveAbi fails with the invalid-format error exactly when the
text does not parse as JSON; every text that does parse, array-shaped or
not, is stored under the name; and validateAbi accepts exactly the texts
parsing to a JSON array, so a non-array JSON text is stored even though
validateAbi rejects it. -/
theorem saveAbi_validation (parse : String → Option Json)
    (m : AbiManager.SavedAbis) (name text : String) :
    (AbiManager.saveAbi parse m name text = Except.error AbiManager.invalidFormatMsg ↔
       parse text = none) ∧
    (∀ j, parse text = some j →
       AbiManager.saveAbi parse m name text = Except.ok (true, objSet m name text) ∧
       objGet (objSet m name text) name = some text) ∧
    (AbiManager.validateAbi parse text = true ↔ ∃ xs, parse text = some (Json.arr xs)) := by
  refine ⟨?_, ?_, ?_⟩
  · unfold AbiManager.saveAbi
    cases hp : parse text <;> simp
  · intro j hj
    unfold AbiManager.saveAbi
    rw [hj]
    exact ⟨rfl, objGet_objSet_self m name text⟩
  · unfold AbiManager.validateAbi
    cases hp : parse text with
    | none => simp
    | some j =>
      cases j <;> simp [Json.isArray]

/-- Stub JSON parser accepting exactly the text 7 as the JSON number 7, a
valid non-array document. -/
def parseStubNum : String → Option Json := fun s =>
  if s = "7" then some (Json.num 7) else none

theorem saveAbi_validation_witness :
    AbiManager.saveAbi parseStubNum [] "n" "7" = Except.ok (true, [("n", "7")]) ∧
    AbiManager.validateAbi parseStubNum "7" = false := by
  have h := saveAbi_validation parseStubNum [] "n" "7"
  refine ⟨(h.2.1 (Json.num 7) rfl).1, ?_⟩
  have hnot : ¬ (AbiManager.validateAbi parseStubNum "7" = true) := by
    rw [h.2.2]
    rintro ⟨xs, hxs⟩
    simp [parseStubNum] at hxs
  cases hb : AbiManager.validateAbi parseStubNum "7"
  · rfl
  · exact absurd hb hnot

/-- Claim C7: saving a valid-JSON text under a name already in the map
overwrites exactly that entry, leaves the getAbiByName result of every other
name unchanged, and keeps the number of saved names (the length of
getSavedAbisList) the same. -/
theorem saveAbi_overwrite_frame (parse : String → Option Json)
    (m : AbiManager.SavedAbis) (name text old : String) (j : Json)
    (hparse : parse text = some j) (hpresent : objGet m name = some old) :
    AbiManager.saveAbi parse m name text = Except.ok (true, objSet m name text) ∧
    objGet (objSet m name text) name = some text ∧
    (∀ k, k ≠ name →
       AbiManager.getAbiByName (objSet m name text) k = AbiManager.getAbiByName m k) ∧
    (AbiManager.getSavedAbisList (objSet m name text)).length =
      (AbiManager.getSavedAbisList m).length := by
  refine ⟨?_, objGet_objSet_self m name text, ?_, ?_⟩
  · unfold AbiManager.saveAbi
    rw [hparse]
  · intro k hk
    unfold AbiManager.getAbiByName
    rw [objGet_objSet_ne m name text k hk]
  · have hany : m.any (fun p => p.1 == name) = true := by
      rw [← objGet_isSome_iff_any, hpresent]
      rfl
    unfold AbiManager.getSavedAbisList
    simp [objSet_length_of_any m name text hany]

theorem saveAbi_overwrite_frame_witness :
    AbiManager.saveAbi parseStub [("Token", "[0]"), ("Other", "[1]")] "Token" "[]" =
      Except.ok (true, [("Token", "[]"), ("Other", "[1]")]) ∧
    AbiManager.getAbiByName [("Token", "[]"), ("Other", "[1]")] "Other" =
      AbiManager.getAbiByName [("Token", "[0]"), ("Other", "[1]")] "Other" ∧
    (AbiManager.getSavedAbisList [("Token", "[]"), ("Other", "[1]")]).length = 2 := by
  have h := saveAbi_overwrite_frame parseStub [("Token", "[0]"), ("Other", "[1]")]
    "Token" "[]" "[0]" (Json.arr []) rfl rfl
  exact ⟨h.1, h.2.2.1 "Other" (by decide), h.2.2.2.trans rfl⟩

/-- Claim C10 as frozen is false at a concrete input: in the saved-ABI map
holding the empty string under the name x, the name x is present, yet
deleteAbi returns false with the map unchanged (the stored value is falsy in
the truthiness test), instead of returning true and removing the entry. -/
theorem deleteAbi_counterexample :
    objGet [("x", "")] "x" = some "" ∧
    AbiManager.deleteAbi [("x", "")] "x" = (false, [("x", "")]) := by
  exact ⟨rfl, rfl⟩

/-- Claim C10 (amended): deleteAbi returns false and changes nothing when
the name is absent or its stored text is the empty string (a falsy value);
when the name is present with non-empty text it returns true, the lookup of
that name becomes absent, the entry of every other name is unchanged, and
with duplicate-free keys the map shrinks by exactly one entry. -/
theorem deleteAbi_spec (m : AbiManager.SavedAbis) (name : String) :
    ((objGet m name = none ∨ objGet m name = some "") →
       AbiManager.deleteAbi m name = (false, m)) ∧
    (∀ v, objGet m name = some v → v ≠ "" →
       (AbiManager.deleteAbi m name).1 = true ∧
       objGet (AbiManager.deleteAbi m name).2 name = none ∧
       (∀ k, k ≠ name →
          objGet (AbiManager.deleteAbi m name).2 k = objGet m k) ∧
       ((m.map Prod.fst).Nodup →
          (AbiManager.deleteAbi m name).2.length + 1 = m.length)) := by
  constructor
  · intro h
    unfold AbiManager.deleteAbi
    rcases h with h | h <;> rw [h] <;> rfl
  · intro v hv hne
    have htr : strTruthy (objGet m name) = true := by
      rw [hv]
      simpa [strTruthy, bne] using hne
    have hd : AbiManager.deleteAbi m name = (true, objDelete m name) := by
      unfold AbiManager.deleteAbi
      rw [htr]
      rfl
    rw [hd]
    exact ⟨rfl, objGet_objDelete_self m name,
      fun k hk => objGet_objDelete_ne m name k hk,
      fun hnd => objDelete_length m name v hnd hv⟩

theorem deleteAbi_spec_witness :
    (AbiManager.deleteAbi [("a", "[1]"), ("b", "[]")] "a").1 = true ∧
    objGet (AbiManager.deleteAbi [("a", "[1]"), ("b", "[]")] "a").2 "a" = none ∧
    objGet (AbiManager.deleteAbi [("a", "[1]"), ("b", "[]")] "a").2 "b" =
      objGet [("a", "[1]"), ("b", "[]")] "b" ∧
    (AbiManager.deleteAbi [("a", "[1]"), ("b", "[]")] "a").2.length + 1 = 2 := by
  have h := (deleteAbi_spec [("a", "[1]"), ("b", "[]")] "a").2 "[1]" rfl (by decide)
  exact ⟨h.1, h.2.1, h.2.2.1 "b" (by decide), h.2.2.2 (by decide)⟩

/-- Claim C4: with an ABI set, getAvailableFunctions returns exactly one
descriptor per function-type entry and none for any other entry, in the
original relative order: the result length is the count of function-type
entries, and the descriptor at each position is the projection (exposing
name, mutability, inputs, outputs, constant and payable flag) of the
function-type entry at the same position. -/
theorem getAvailableFunctions_spec (st : ContractInteractor.State)
    (abi : List ContractInteractor.AbiEntry) (habi : st.abi = some abi) :
    (ContractInteractor.getAvailableFunctions st).length =
      abi.countP (fun e => e.type == "function") ∧
    ∀ i (h1 : i < (ContractInteractor.getAvailableFunctions st).length)
      (h2 : i < (abi.filter (fun e => e.type == "function")).length),
      (ContractInteractor.getAvailableFunctions st).get ⟨i, h1⟩ =
        ContractInteractor.toFunctionInfo
          ((abi.filter (fun e => e.type == "function")).get ⟨i, h2⟩) := by
  unfold ContractInteractor.getAvailableFunctions
  rw [habi]
  constructor
  · rw [List.length_map, ← List.countP_eq_length_filter]
  · intro i h1 h2
    exact List.get_map ContractInteractor.toFunctionInfo

theorem getAvailableFunctions_spec_witness :
    (ContractInteractor.getAvailableFunctions
        ⟨none, some [⟨"function", "f", some "view", some [], some [], none, none⟩,
                     ⟨"event", "E", none, none, none, none, none⟩],
         false, false⟩).length = 1 ∧
    (ContractInteractor.getAvailableFunctions
        ⟨none, some [⟨"function", "f", some "view", some [], some [], none, none⟩,
                     ⟨"event", "E", none, none, none, none, none⟩],
         false, false⟩).get ⟨0, by decide⟩ =
      ContractInteractor.toFunctionInfo
        ⟨"function", "f", some "view", some [], some [], none, none⟩ := by
  have h := getAvailableFunctions_spec
    ⟨none, some [⟨"function", "f", some "view", some [], some [], none, none⟩,
                 ⟨"event", "E", none, none, none, none, none⟩],
     false, false⟩
    [⟨"function", "f", some "view", some [], some [], none, none⟩,
     ⟨"event", "E", none, none, none, none, none⟩] rfl
  exact ⟨h.1.trans rfl, h.2 0 (by decide) (by decide)⟩

/-- Claim C3 as frozen is false at a concrete input: on a ready contract
binding with no signer-backed binding, the function f declares mutability
nonpayable, yet callFunction does not fail with the signer-required error:
its legacy constant flag routes it through the read-only dispatch, so the
two halves of the claim contradict each other on such an entry and the code
follows the read path. -/
theorem callFunction_counterexample :
    ContractInteractor.isContractReady
      ⟨some "0x1", some [⟨"function", "f", some "nonpayable",
        some [], some [], some true, some false⟩], true, false⟩ = true ∧
    ContractInteractor.getFunctionDetails
      ⟨some "0x1", some [⟨"function", "f", some "nonpayable",
        some [], some [], some true, some false⟩], true, false⟩ "f" =
      some ⟨"function", "f", some "nonpayable", some [], some [], some true, some false⟩ ∧
    ContractInteractor.callFunction
      ⟨some "0x1", some [⟨"function", "f", some "nonpayable",
        some [], some [], some true, some false⟩], true, false⟩ "f" [] .undefV =
      .readCall "f" [] (some []) ∧
    ContractInteractor.callFunction
      ⟨some "0x1", some [⟨"function", "f", some "nonpayable",
        some [], some [], some true, some false⟩], true, false⟩ "f" [] .undefV ≠
      .errSignerRequired := by
  refine ⟨rfl, rfl, rfl, ?_⟩
  intro h
  rw [show ContractInteractor.callFunction
      ⟨some "0x1", some [⟨"function", "f", some "nonpayable",
        some [], some [], some true, some false⟩], true, false⟩ "f" [] .undefV =
      .readCall "f" [] (some []) from rfl] at h
  exact ContractInteractor.Dispatch.noConfusion h

/-- Claim C3 (amended): on a ready contract binding, callFunction on a
function whose declared mutability is view or pure, or whose legacy constant
flag is set, always dispatches through the read-only binding regardless of
whether the signer-backed binding exists; callFunction on a function with
mutability nonpayable whose constant flag is not set fails with the
signer-required error, without dispatching, whenever no signer-backed
binding exists. -/
theorem callFunction_dispatch (st : ContractInteractor.State) (functionName : String)
    (params : List ContractInteractor.JsValue) (ov : ContractInteractor.JsValue)
    (fd : ContractInteractor.AbiEntry)
    (hready : ContractInteractor.isContractReady st = true)
    (hfd : ContractInteractor.getFunctionDetails st functionName = some fd) :
    ((fd.stateMutability = some "view" ∨ fd.stateMutability = some "pure" ∨
        fd.constant = some true) →
      ContractInteractor.callFunction st functionName params ov =
        .readCall functionName (ContractInteractor.processParams fd.inputs params)
          fd.outputs) ∧
    (fd.stateMutability = some "nonpayable" → fd.constant ≠ some true →
      st.contractWithSigner = false →
      ContractInteractor.callFunction st functionName params ov = .errSignerRequired) := by
  constructor
  · intro hro
    have hro' : (fd.stateMutability == some "view"
        || fd.stateMutability == some "pure"
        || fd.constant == some true) = true := by
      rcases hro with h | h | h <;> simp [h]
    unfold ContractInteractor.callFunction
    rw [hready]
    simp only [Bool.not_true, Bool.false_eq_true, if_false, hfd, hro', if_true]
  · intro hsm hconst hsig
    have hro' : (fd.stateMutability == some "view"
        || fd.stateMutability == some "pure"
        || fd.constant == some true) = false := by
      rw [hsm]
      have hc : (fd.constant == some true) = false := by
        cases hcv : fd.constant with
        | none => rfl
        | some b =>
          cases b
          · rfl
          · exact absurd hcv hconst
      rw [hc]
      rfl
    unfold ContractInteractor.callFunction
    rw [hready]
    simp only [Bool.not_true, Bool.false_eq_true, if_false, hfd, hro', hsig,
      Bool.not_false, if_true]

theorem callFunction_dispatch_witness :
    ContractInteractor.callFunction
      ⟨some "0x1", some [⟨"function", "g", some "view",
        some [], some [], none, none⟩], true, false⟩ "g" [] .undefV =
      .readCall "g" [] (some []) := by
  have h := callFunction_dispatch
    ⟨some "0x1", some [⟨"function", "g", some "view", some [], some [], none, none⟩],
     true, false⟩ "g" [] .undefV
    ⟨"function", "g", some "view", some [], some [], none, none⟩ rfl rfl
  exact (h.1 (Or.inl rfl)).trans rfl

/-- Claim C5: _formatResult stringifies a BigNumber result; when the raw
result is array-shaped and the output-definition list is present with more
than one entry, it returns a mapping with one field per output in output
order, each keyed by the output name (output_i when the name is empty) and
holding the stringified value for a BigNumber field, the raw value for any
other present field, and undefined when the raw array is shorter; in every
other case the raw result is returned unchanged. -/
theorem formatResult_spec (result : ContractInteractor.RawValue)
    (defs? : Option (List ContractInteractor.AbiParam)) :
    (∀ n, result = .big n →
       ContractInteractor.formatResult result defs? = .strF (toString n)) ∧
    (∀ xs defs, result = .arr xs → defs? = some defs → defs.length > 1 →
       ContractInteractor.formatResult result defs? =
         .objF (defs.mapIdx (fun index output =>
           (ContractInteractor.outputKey index output,
            ContractInteractor.formatField (xs.get? index))))) ∧
    (result.isBig = false →
     (result.isArr = false ∨ defs? = none ∨
        (∀ defs, defs? = some defs → defs.length ≤ 1)) →
     ContractInteractor.formatResult result defs? = .fromRaw result) := by
  refine ⟨?_, ?_, ?_⟩
  · intro n hn
    subst hn
    rfl
  · intro xs defs hxs hdefs hlen
    subst hxs
    subst hdefs
    simp [ContractInteractor.formatResult, hlen]
  · intro hbig hrest
    cases result with
    | big n => simp [ContractInteractor.RawValue.isBig] at hbig
    | arr xs =>
      rcases hrest with h | h | h
      · simp [ContractInteractor.RawValue.isArr] at h
      · subst h
        rfl
      · cases hd : defs? with
        | none => rfl
        | some defs =>
          have hle : ¬ (defs.length > 1) := Nat.not_lt.mpr (h defs hd)
          subst hd
          simp [ContractInteractor.formatResult, hle]
    | str s => rfl
    | boolV b => rfl
    | num n => rfl

theorem formatResult_spec_witness :
    ContractInteractor.formatResult (.arr [.big 7, .str "a"])
        (some [⟨"x", "uint256"⟩, ⟨"", "address"⟩]) =
      .objF [("x", .strF "7"), ("output_1", .raw (.str "a"))] := by
  have h := (formatResult_spec (.arr [.big 7, .str "a"])
      (some [⟨"x", "uint256"⟩, ⟨"", "address"⟩])).2.1
    [.big 7, .str "a"] [⟨"x", "uint256"⟩, ⟨"", "address"⟩] rfl rfl (by decide)
  rw [h]
  rfl

/-- Claim C8: for every filesystem and request URL, when the resolved file
reads successfully the response is a 200 carrying the content type derived
from the resolved path extension and the file content; when the resolved
file is not found, the root document ./index.html is served as text/html
with a 200 when it reads successfully, and the response status is 500
exactly when the root document itself cannot be read. -/
theorem handleRequest_spec (extnameF : String → String)
    (fs : String → StaticServer.ReadResult) (url : String) :
    (∀ content, fs (StaticServer.resolvePath url) = .ok content →
       StaticServer.handleRequest extnameF fs url =
         ⟨200, some (StaticServer.contentTypeFor extnameF (StaticServer.resolvePath url)),
          content⟩) ∧
    (fs (StaticServer.resolvePath url) = .enoent →
       (∀ content, fs "./index.html" = .ok content →
          StaticServer.handleRequest extnameF fs url = ⟨200, some "text/html", content⟩) ∧
       ((StaticServer.handleRequest extnameF fs url).status = 500 ↔
          ∀ content, fs "./index.html" ≠ .ok content)) := by
  constructor
  · intro content hok
    simp only [StaticServer.handleRequest]
    rw [hok]
  · intro hmiss
    constructor
    · intro content hok
      simp only [StaticServer.handleRequest]
      rw [hmiss, hok]
    · simp only [StaticServer.handleRequest]
      rw [hmiss]
      cases hidx : fs "./index.html" with
      | ok content =>
        constructor
        · intro h
          simp at h
        · intro h
          exact absurd rfl (h content)
      | enoent =>
        constructor
        · intro _ content hc
          exact StaticServer.ReadResult.noConfusion hc
        · intro _
          rfl
      | err code =>
        constructor
        · intro _ content hc
          exact StaticServer.ReadResult.noConfusion hc
        · intro _
          rfl

theorem handleRequest_spec_witness :
    (StaticServer.handleRequest (fun _ => ".html")
        (fun p => if p = "./app.html" then .ok "<app>" else .enoent) "/app.html" =
      ⟨200, some "text/html", "<app>"⟩) ∧
    (StaticServer.handleRequest (fun _ => ".css")
        (fun p => if p = "./index.html" then .ok "<idx>" else .enoent) "/missing.css" =
      ⟨200, some "text/html", "<idx>"⟩) := by
  have h1 := (handleRequest_spec (fun _ => ".html")
      (fun p => if p = "./app.html" then .ok "<app>" else .enoent) "/app.html").1
    "<app>" (by simp [StaticServer.resolvePath])
  have h2 := (handleRequest_spec (fun _ => ".css")
      (fun p => if p = "./index.html" then .ok "<idx>" else .enoent) "/missing.css").2
    (by simp [StaticServer.resolvePath])
  exact ⟨h1.trans rfl, h2.1 "<idx>" (by simp)⟩

end EvmTool
